import Mathlib

/-!
Verification development for the `wk` git-worktree CLI.

The definitions below are a shallow embedding of the TypeScript sources:
`src/core/worktree.ts`, `src/core/git.ts`, `src/cli/args.ts`, `src/commands.ts`.
External effects (spawning `git`, filesystem access, console output) are
modelled by an explicit environment (`Env`) of deterministic oracles and an
effect trace (`List Eff`).  Node library functions used by the sources
(`path.posix`, `node:crypto` SHA-1, `node:util` parseArgs) are embedded from
their defining algorithms.
-/

namespace Wk

/-! ## POSIX path functions (embedding of node:path, posix flavour) -/

/-- One step of path normalization: push one path segment onto the
resolved-segment stack, handling `""`, `"."` and `".."` as
`path.posix.normalize` does (`allowAboveRoot` keeps leading `..` segments
for relative paths). -/
def normPush (allowAboveRoot : Bool) (acc : List (List Char)) (p : List Char) :
    List (List Char) :=
  if p = [] ∨ p = ['.'] then acc
  else if p = ['.', '.'] then
    match acc.getLast? with
    | some t => if t = ['.', '.'] ∧ allowAboveRoot then acc ++ [p] else acc.dropLast
    | none => if allowAboveRoot then [p] else []
  else acc ++ [p]

/-- Split a character list on `/` (empty components preserved, as in the
library's split). -/
def splitSlash : List Char → List (List Char)
  | [] => [[]]
  | c :: cs =>
    if c = '/' then [] :: splitSlash cs
    else
      match splitSlash cs with
      | [] => [[c]]
      | p :: ps => (c :: p) :: ps

/-- Normalized segment stack of a path (split on `/`, then `normPush`). -/
def normParts (allowAboveRoot : Bool) (l : List Char) : List (List Char) :=
  (splitSlash l).foldl (normPush allowAboveRoot) []

/-- `path.posix.normalize` on character lists. -/
def normalizeChars (l : List Char) : List Char :=
  if l = [] then ['.']
  else
    let isAbs := l.head? = some '/'
    let trailing := l.getLast? = some '/'
    let body := ((normParts (!isAbs) l).intersperse ['/']).flatten
    if body = [] then
      if isAbs then ['/'] else if trailing then ['.', '/'] else ['.']
    else
      (if isAbs then '/' :: body else body) ++ (if trailing then ['/'] else [])

/-- `path.posix.join` on character lists: drop empty arguments, interleave
`/`, normalize; no arguments left means `"."`. -/
def joinChars (parts : List (List Char)) : List Char :=
  let ne := parts.filter (· ≠ [])
  match ne with
  | [] => ['.']
  | _ => normalizeChars ((ne.intersperse ['/']).flatten)

/-- `path.posix.join` (variadic arguments as a list). -/
def posixJoin (parts : List String) : String :=
  ⟨joinChars (parts.map (·.data))⟩

/-- `path.posix.basename` on character lists: skip trailing separators,
then take the last component. -/
def basenameChars (l : List Char) : List Char :=
  let r2 := l.reverse.dropWhile (· = '/')
  (r2.takeWhile (· ≠ '/')).reverse

/-- `path.posix.basename`. -/
def posixBasename (s : String) : String :=
  ⟨basenameChars s.data⟩

/-- `path.posix.dirname` on character lists, following the Node scan: skip
trailing separators, find the separator ending the parent prefix; the scan
never looks at index 0, and `//x` has dirname `//`. -/
def dirnameChars (l : List Char) : List Char :=
  if l = [] then ['.']
  else
    let hasRoot := l.head? = some '/'
    let r3 := (l.reverse.dropWhile (· = '/')).dropWhile (· ≠ '/')
    match r3 with
    | [] => if hasRoot then ['/'] else ['.']
    | _ =>
      let slashIdx := r3.length - 1
      if slashIdx = 0 then (if hasRoot then ['/'] else ['.'])
      else if hasRoot ∧ slashIdx = 1 then ['/', '/']
      else l.take slashIdx

/-- `path.posix.dirname`. -/
def posixDirname (s : String) : String :=
  ⟨dirnameChars s.data⟩

/-- `path.posix.resolve` with a single argument and an ambient
current working directory (the only shape the sources use). -/
def resolveChars (cwd : List Char) (p : List Char) : List Char :=
  let joined :=
    if p.head? = some '/' then p
    else if p = [] then cwd ++ ['/']
    else cwd ++ '/' :: p
  let isAbs := joined.head? = some '/'
  let body := ((normParts (!isAbs) joined).intersperse ['/']).flatten
  if isAbs then '/' :: body
  else if body = [] then ['.']
  else body

/-- `path.resolve(p)` as used by the sources (posix, one argument). -/
def posixResolve (cwd p : String) : String :=
  ⟨resolveChars cwd.data p.data⟩

/-! ## SHA-1 (embedding of node:crypto `createHash("sha1")`) -/

/-- Truncate to 32 bits. -/
def w32 (n : Nat) : Nat := n % 4294967296

/-- 32-bit left rotation. -/
def rotl32 (k n : Nat) : Nat :=
  ((n <<< k) ||| (n >>> (32 - k))) &&& 0xFFFFFFFF

/-- UTF-8 encoding of one scalar value (as `Buffer.from(str, "utf8")`). -/
def encodeUtf8Char (c : Char) : List Nat :=
  let n := c.toNat
  if n < 0x80 then [n]
  else if n < 0x800 then
    [0xC0 ||| (n >>> 6), 0x80 ||| (n &&& 0x3F)]
  else if n < 0x10000 then
    [0xE0 ||| (n >>> 12), 0x80 ||| ((n >>> 6) &&& 0x3F), 0x80 ||| (n &&& 0x3F)]
  else
    [0xF0 ||| (n >>> 18), 0x80 ||| ((n >>> 12) &&& 0x3F),
     0x80 ||| ((n >>> 6) &&& 0x3F), 0x80 ||| (n &&& 0x3F)]

/-- UTF-8 bytes of a string. -/
def utf8Bytes (s : String) : List Nat :=
  s.data.foldr (fun c acc => encodeUtf8Char c ++ acc) []

/-- SHA-1 message padding: `0x80`, zeros, 64-bit big-endian bit length. -/
def sha1Pad (msg : List Nat) : List Nat :=
  let len := msg.length
  let bitLen := len * 8
  let padZeros := (119 - (len % 64)) % 64
  msg ++ [0x80] ++ List.replicate padZeros 0 ++
    [(bitLen >>> 56) &&& 255, (bitLen >>> 48) &&& 255, (bitLen >>> 40) &&& 255,
     (bitLen >>> 32) &&& 255, (bitLen >>> 24) &&& 255, (bitLen >>> 16) &&& 255,
     (bitLen >>> 8) &&& 255, bitLen &&& 255]

/-- Split a byte list into 64-byte chunks (structural recursion on a fuel
bound, which the byte-list length always satisfies). -/
def chunks64Aux : Nat → List Nat → List (List Nat)
  | 0, _ => []
  | _, [] => []
  | fuel + 1, b :: bs => ((b :: bs).take 64) :: chunks64Aux fuel ((b :: bs).drop 64)

/-- Split a byte list into 64-byte chunks. -/
def chunks64 (l : List Nat) : List (List Nat) :=
  chunks64Aux l.length l

/-- Big-endian 32-bit words from bytes. -/
def bytesToWords : List Nat → List Nat
  | b0 :: b1 :: b2 :: b3 :: rest =>
    (((b0 <<< 24) ||| (b1 <<< 16)) ||| ((b2 <<< 8) ||| b3)) :: bytesToWords rest
  | _ => []

/-- Extend the 16-word message schedule; `win` holds the previous 16 words,
oldest first. -/
def genW : Nat → List Nat → List Nat
  | 0, _ => []
  | n + 1, win =>
    let next := rotl32 1 (((win.getD 13 0) ^^^ (win.getD 8 0)) ^^^
      ((win.getD 2 0) ^^^ (win.getD 0 0)))
    next :: genW n (win.tail ++ [next])

/-- One SHA-1 round; the counter selects the round function and constant. -/
def sha1Step (st : Nat × Nat × Nat × Nat × Nat × Nat) (w : Nat) :
    Nat × Nat × Nat × Nat × Nat × Nat :=
  let (i, a, b, c, d, e) := st
  let f :=
    if i < 20 then (b &&& c) ||| (((0xFFFFFFFF : Nat) ^^^ b) &&& d)
    else if i < 40 then (b ^^^ c) ^^^ d
    else if i < 60 then ((b &&& c) ||| (b &&& d)) ||| (c &&& d)
    else (b ^^^ c) ^^^ d
  let k :=
    if i < 20 then 0x5A827999
    else if i < 40 then 0x6ED9EBA1
    else if i < 60 then 0x8F1BBCDC
    else 0xCA62C1D6
  let temp := w32 (rotl32 5 a + f + e + k + w)
  (i + 1, temp, a, rotl32 30 b, c, d)

/-- Compress one 64-byte chunk into the running state. -/
def sha1Compress (h : Nat × Nat × Nat × Nat × Nat) (chunk : List Nat) :
    Nat × Nat × Nat × Nat × Nat :=
  let w16 := bytesToWords chunk
  let ws := w16 ++ genW 64 w16
  let (h0, h1, h2, h3, h4) := h
  let (_, a, b, c, d, e) := ws.foldl sha1Step (0, h0, h1, h2, h3, h4)
  (w32 (h0 + a), w32 (h1 + b), w32 (h2 + c), w32 (h3 + d), w32 (h4 + e))

/-- The five 32-bit words of the SHA-1 digest of a string. -/
def sha1Words (s : String) : List Nat :=
  let (a, b, c, d, e) :=
    (chunks64 (sha1Pad (utf8Bytes s))).foldl sha1Compress
      (0x67452301, 0xEFCDAB89, 0x98BADCFE, 0x10325476, 0xC3D2E1F0)
  [a, b, c, d, e]

/-- Lower-case hex character of a nibble. -/
def nibbleChar (n : Nat) : Char :=
  if n < 10 then Char.ofNat (48 + n) else Char.ofNat (87 + n)

/-- Eight hex characters of a 32-bit word, most significant first. -/
def wordHexChars (w : Nat) : List Char :=
  [nibbleChar (w / 16 ^ 7 % 16), nibbleChar (w / 16 ^ 6 % 16),
   nibbleChar (w / 16 ^ 5 % 16), nibbleChar (w / 16 ^ 4 % 16),
   nibbleChar (w / 16 ^ 3 % 16), nibbleChar (w / 16 ^ 2 % 16),
   nibbleChar (w / 16 % 16), nibbleChar (w % 16)]

/-- `createHash("sha1").update(s).digest("hex")`. -/
def sha1Hex (s : String) : String :=
  ⟨((sha1Words s).map wordHexChars).flatten⟩

/-! ## Path/identity resolver (src/core/worktree.ts) -/

/-- Character class of the regex `[a-zA-Z0-9._-]` used by the sources. -/
def safeChar (c : Char) : Bool :=
  ('a' ≤ c && c ≤ 'z') || ('A' ≤ c && c ≤ 'Z') || ('0' ≤ c && c ≤ '9') ||
    c = '.' || c = '_' || c = '-'

/-- `s.replace(/[^a-zA-Z0-9._-]/g, "_")`. -/
def sanitizeSeg (s : String) : String :=
  ⟨s.data.map (fun c => if safeChar c then c else '_')⟩

/-- `repoIdFromRoot` from src/core/worktree.ts: sanitized basename, a dash,
and the first 10 hex characters of the SHA-1 of the root path. -/
def repoIdFromRoot (repoRoot : String) : String :=
  let hash : String := ⟨(sha1Hex repoRoot).data.take 10⟩
  let base := sanitizeSeg (posixBasename repoRoot)
  base ++ "-" ++ hash

/-- `worktreePath` from src/core/worktree.ts. -/
def worktreePath (depot repoRoot name : String) : String :=
  posixJoin [depot, repoIdFromRoot repoRoot, name]

/-- `defaultDepot` from src/core/worktree.ts (`os.homedir()` is an
environment input). -/
def defaultDepot (home : String) : String :=
  posixJoin [home, ".worktrees"]

/-- The flag record taken by `resolveApplyMode`. -/
structure ApplyFlags where
  merge : Bool
  rebase : Bool
  patch : Bool
deriving DecidableEq, Repr

/-- The three non-switch apply modes. -/
inductive ApplyMode where
  | merge
  | rebase
  | patch
deriving DecidableEq, Repr

/-- `resolveApplyMode` from src/core/worktree.ts. -/
def resolveApplyMode (flags : ApplyFlags) : ApplyMode :=
  if flags.patch then .patch
  else if flags.rebase then .rebase
  else if flags.merge then .merge
  else .merge

/-! ## CLI argument parsing (src/cli/args.ts)

`parseCliArgs` delegates to `node:util`'s `parseArgs` with
`strict: false`, `allowPositionals: true`, `tokens: true` and the option
table `optionSpec`; the tokenizer below embeds that library's
token-generation algorithm for this configuration.  -/

/-- `string | boolean` flag values (src/types.ts `FlagValue`). -/
inductive FlagValue where
  | str (s : String)
  | bool (b : Bool)
deriving DecidableEq, Repr

/-- `ParsedArgs` (src/types.ts): positionals (`_`) and an
insertion-ordered flag record (last assignment wins). -/
structure ParsedArgs where
  pos : List String
  flags : List (String × FlagValue)
deriving DecidableEq, Repr

/-- Record lookup: the last stored value for a key, if any. -/
def getFlag (args : ParsedArgs) (key : String) : Option FlagValue :=
  (args.flags.filterMap (fun kv => if kv.1 = key then some kv.2 else none)).getLast?

/-- Declared option types (node:util parseArgs option table entries). -/
inductive OptType where
  | boolean
  | string
deriving DecidableEq, Repr

/-- The `optionSpec` table from src/cli/args.ts. -/
def optionSpec (name : String) : Option OptType :=
  if name = "all" then some .boolean
  else if name = "branch" then some .string
  else if name = "delete-branch" then some .boolean
  else if name = "depot" then some .string
  else if name = "force" then some .boolean
  else if name = "help" then some .boolean
  else if name = "keep-branch" then some .boolean
  else if name = "merge" then some .boolean
  else if name = "message" then some .string
  else if name = "no-branch" then some .boolean
  else if name = "no-ff" then some .boolean
  else if name = "patch" then some .boolean
  else if name = "rebase" then some .boolean
  else if name = "repo" then some .string
  else if name = "target" then some .string
  else none

/-- `shortToLong` from src/cli/args.ts (`h` aliases `help`). -/
def shortToLong (name : String) : Option String :=
  if name = "h" then some "help" else none

/-- parseArgs' `findLongOptionForShort`: the long name registered for a
short character (only `h` in `optionSpec`), or the character itself. -/
def shortLong (c : Char) : String :=
  if c = 'h' then "help" else ⟨[c]⟩

/-- One parseArgs option token: resolved option name, the raw argument
text, and the option value when one was attached or consumed. -/
structure Token where
  name : String
  rawName : String
  value : Option String
deriving DecidableEq, Repr

/-- parseArgs' handling of a short-option group `-abc` (which the library
expands and splices back into the argument list): each character becomes a
lone short boolean option until a string-typed short takes the rest of the
group as its attached value; a string-typed short in last position may
instead consume the next argument (the returned flag says whether it did).
Since spliced group members are processed immediately, this one-step
reading is equivalent to the library's splice. -/
def groupTokens : List Char → List String → List Token × Bool
  | [], _ => ([], false)
  | [c], rest =>
    let long := shortLong c
    if optionSpec long = some .string then
      match rest with
      | v :: _ => ([⟨long, "-" ++ String.mk [c], some v⟩], true)
      | [] => ([⟨long, "-" ++ String.mk [c], none⟩], false)
    else ([⟨long, "-" ++ String.mk [c], none⟩], false)
  | c :: cs, rest =>
    let long := shortLong c
    if optionSpec long = some .string then
      ([⟨long, "-" ++ String.mk [c], some ⟨cs⟩⟩], false)
    else
      let (ts, consumed) := groupTokens cs rest
      (⟨long, "-" ++ String.mk [c], none⟩ :: ts, consumed)

/-- The token generator of node:util `parseArgs` (strict mode off) for the
`optionSpec` configuration.  Returns the option tokens and the
positionals, each in order. -/
def tokenize : List String → List Token × List String
  | [] => ([], [])
  | arg :: rest =>
    match arg.data with
    | '-' :: '-' :: [] =>
      -- option terminator: everything after `--` is positional
      ([], rest)
    | '-' :: '-' :: c :: cs =>
      if cs.contains '=' then
        -- `--name=value`, split at the first `=` at index ≥ 3
        let nm : String := ⟨c :: cs.takeWhile (· ≠ '=')⟩
        let v : String := ⟨(cs.dropWhile (· ≠ '=')).tail⟩
        let (ts, ps) := tokenize rest
        (⟨nm, "--" ++ nm, some v⟩ :: ts, ps)
      else
        -- lone `--name`: a string-typed option greedily consumes the
        -- next argument when one exists
        let nm : String := ⟨c :: cs⟩
        if optionSpec nm = some .string then
          match rest with
          | v :: rtl =>
            let (ts, ps) := tokenize rtl
            (⟨nm, arg, some v⟩ :: ts, ps)
          | [] => (⟨nm, arg, none⟩ :: [], [])
        else
          let (ts, ps) := tokenize rest
          (⟨nm, arg, none⟩ :: ts, ps)
    | '-' :: c :: cs =>
      match cs with
      | [] =>
        -- lone short option; a string-typed short consumes the next arg
        let long := shortLong c
        if optionSpec long = some .string then
          match rest with
          | v :: rtl =>
            let (ts, ps) := tokenize rtl
            (⟨long, arg, some v⟩ :: ts, ps)
          | [] => (⟨long, arg, none⟩ :: [], [])
        else
          let (ts, ps) := tokenize rest
          (⟨long, arg, none⟩ :: ts, ps)
      | _ :: _ =>
        let long := shortLong c
        if optionSpec long = some .string then
          -- `-xVALUE` with a string-typed short option
          let (ts, ps) := tokenize rest
          (⟨long, "-" ++ String.mk [c], some ⟨cs⟩⟩ :: ts, ps)
        else
          -- short option group
          let (gts, consumed) := groupTokens (c :: cs) rest
          if consumed then
            match rest with
            | _ :: rtl =>
              let (ts, ps) := tokenize rtl
              (gts ++ ts, ps)
            | [] => (gts, [])
          else
            let (ts, ps) := tokenize rest
            (gts ++ ts, ps)
    | _ =>
      -- positional: not dash-led, or the bare "-" / empty argument
      let (ts, ps) := tokenize rest
      (ts, arg :: ps)

/-- `parseCliArgs` from src/cli/args.ts: run the tokenizer, then fold the
option tokens into the flag record (`--`-raw tokens keep their name,
short tokens go through `shortToLong`; a token without a value stores
boolean `true`). -/
def parseCliArgs (argv : List String) : ParsedArgs :=
  let (toks, ps) := tokenize argv
  { pos := ps
    flags := toks.foldl (fun fl t =>
      let key := if t.rawName.data.take 2 = ['-', '-'] then t.name
                 else (shortToLong t.name).getD t.name
      fl ++ [(key, (t.value.map FlagValue.str).getD (FlagValue.bool true))]) [] }

/-- `flagStr` from src/cli/args.ts. -/
def flagStr (args : ParsedArgs) (key : String) (fallback : Option String := none) :
    Option String :=
  match getFlag args key with
  | some (.str s) => some s
  | _ => fallback

/-- `flagBool` from src/cli/args.ts. -/
def flagBool (args : ParsedArgs) (key : String) (fallback : Bool := false) : Bool :=
  match getFlag args key with
  | some (.bool b) => b
  | some (.str s) => s == "true"
  | none => fallback

/-! ## Effects, errors and the VCS invoker (src/core/git.ts, src/core/errors.ts) -/

/-- `trimEnd()`: drop trailing whitespace. -/
def strTrimRight (s : String) : String :=
  ⟨(s.data.reverse.dropWhile Char.isWhitespace).reverse⟩

/-- `trim()`: drop leading and trailing whitespace. -/
def strTrim (s : String) : String :=
  ⟨((s.data.dropWhile Char.isWhitespace).reverse.dropWhile Char.isWhitespace).reverse⟩

/-- Captured output and exit status of one external process invocation. -/
structure ExecOut where
  stdout : String
  stderr : String
  exitCode : Nat
deriving DecidableEq, Repr

/-- Deterministic oracle environment: process spawning, working directory,
home directory, pre-existing filesystem entries, temp directory and clock. -/
structure Env where
  exec : String → List String → ExecOut
  cwd : String
  home : String
  fs0 : String → Bool
  tmpdir : String
  now : Nat

/-- Observable side effects, in execution order. -/
inductive Eff where
  | call (cwd : String) (command : List String) (quiet : Bool)
  | mkdirp (path : String)
  | writeFile (path content : String)
  | rmFile (path : String)
  | logOut (line : String)
  | logErr (line : String)
deriving DecidableEq, Repr

/-- The errors the commands raise (each constructor is one throw/die site;
`render` gives the exact source message). -/
inductive WkError where
  | usageNew
  | usagePath
  | usageRm
  | usageApply
  | unknownCommand (command : String)
  | alreadyExists (wkDir name : String)
  | noWorktreeDir (wkDir : String)
  | worktreeNotFound (wkDir : String)
  | dirtySwitchAbort
  | dirtyMain
  | commandFailed (exitCode : Nat) (command : List String)
  | dieNotRepo
  | dieNoRoot
deriving DecidableEq, Repr

/-- The exact message text of each error, as thrown by the sources. -/
def WkError.render : WkError → String
  | .usageNew => "Usage: wk new <name> [base]"
  | .usagePath => "Usage: wk path <name>"
  | .usageRm => "Usage: wk rm [<name>] [--all] [--force] [--delete-branch|--keep-branch]"
  | .usageApply => "Usage: wk apply <name> [--target <branch>] [--merge|--rebase|--patch|--switch]"
  | .unknownCommand c => "Unknown command: " ++ c
  | .alreadyExists w n =>
    "Worktree already exists at: " ++ w ++ "\nTip: remove it first: wk rm " ++ n
  | .noWorktreeDir w => "No worktree directory found: " ++ w
  | .worktreeNotFound w => "Worktree not found: " ++ w
  | .dirtySwitchAbort => "Aborting apply --switch with dirty repo."
  | .dirtyMain =>
    "Main repo has uncommitted changes. Commit/stash them before apply (or use a clean state)."
  | .commandFailed code cmd =>
    "Command failed (" ++ toString code ++ "): " ++ String.intercalate " " cmd
  | .dieNotRepo => "Not inside a git repository (or --repo is not a git repo)."
  | .dieNoRoot => "Could not determine repo root."

instance : DecidableEq (Except WkError Unit) := fun a b =>
  match a, b with
  | .ok (), .ok () => isTrue rfl
  | .error e, .error f =>
    if h : e = f then isTrue (by rw [h]) else isFalse (by intro c; cases c; exact h rfl)
  | .ok _, .error _ => isFalse (by intro h; cases h)
  | .error _, .ok _ => isFalse (by intro h; cases h)

/-- A command's observable behaviour: its effect trace and its result. -/
structure Outcome where
  effs : List Eff
  result : Except WkError Unit
deriving DecidableEq, Repr

/-- `run` from src/core/git.ts: spawn, trim captured output, echo captured
output to stderr on non-quiet failure, fail on nonzero exit. -/
def run (env : Env) (command : List String) (cwd : String) (quiet : Bool) :
    List Eff × Except WkError ExecOut :=
  let r := env.exec cwd command
  let out := strTrimRight r.stdout
  let err := strTrimRight r.stderr
  let base := [Eff.call cwd command quiet]
  if r.exitCode = 0 then (base, .ok ⟨out, err, r.exitCode⟩)
  else
    let echo :=
      if quiet then []
      else (if out ≠ "" then [Eff.logErr out] else []) ++
           (if err ≠ "" then [Eff.logErr err] else [])
    (base ++ echo, .error (.commandFailed r.exitCode command))

/-- `git` from src/core/git.ts. -/
def git (env : Env) (cwd : String) (args : List String) (quiet : Bool := false) :
    List Eff × Except WkError ExecOut :=
  run env ("git" :: args) cwd quiet

/-- The working directory `resolveRepoRoot` queries for a given `--repo`
argument: `repoArg ? path.resolve(repoArg) : process.cwd()` (the empty
string is falsy). -/
def rootCwd (env : Env) (repoArg : Option String) : String :=
  match repoArg with
  | some r => if r = "" then env.cwd else posixResolve env.cwd r
  | none => env.cwd

/-- `resolveRepoRoot` from src/core/git.ts (an empty or missing `--repo`
falls back to the current directory; `die` messages are printed and
modelled as terminal errors). -/
def resolveRepoRoot (env : Env) (repoArg : Option String) :
    List Eff × Except WkError String :=
  let cwd := rootCwd env repoArg
  let (es, res) := git env cwd ["rev-parse", "--show-toplevel"] true
  match res with
  | .ok o =>
    let root := strTrim o.stdout
    if root = "" then (es ++ [.logErr WkError.dieNoRoot.render], .error .dieNoRoot)
    else (es, .ok root)
  | .error _ => (es ++ [.logErr WkError.dieNotRepo.render], .error .dieNotRepo)

/-! ## Filesystem model (`mkdirSync {recursive}`, `existsSync`, `rmSync`) -/

/-- A path together with its chain of parent directories. -/
def selfAndAncestorsAux : Nat → String → List String
  | 0, p => [p]
  | fuel + 1, p =>
    let d := posixDirname p
    if d = p then [p] else p :: selfAndAncestorsAux fuel d

/-- A path together with its chain of parent directories. -/
def selfAndAncestors (p : String) : List String :=
  selfAndAncestorsAux (p.length + 2) p

/-- `existsSync` after a prefix of the effect trace: initial state updated
by recursive directory creation, file writes and removals, in order. -/
def existsNow (env : Env) (effs : List Eff) (p : String) : Bool :=
  effs.foldl (fun b e =>
    match e with
    | .mkdirp q => if p ∈ selfAndAncestors q then true else b
    | .writeFile q _ => if q = p then true else b
    | .rmFile q => if q = p then false else b
    | _ => b) (env.fs0 p)

/-! ## Worktree helpers over the environment (src/core/worktree.ts) -/

/-- `ensureDir`: `mkdirSync(dirPath, { recursive: true })` as an effect. -/
def ensureDir (dirPath : String) : List Eff :=
  [Eff.mkdirp dirPath]

/-- `isDirty` from src/core/worktree.ts. -/
def isDirty (env : Env) (repoPath : String) : List Eff × Except WkError Bool :=
  let (es, r) := git env repoPath ["status", "--porcelain"] true
  (es, r.map (fun o => decide ((strTrim o.stdout).length > 0)))

/-- `currentBranch` from src/core/worktree.ts (failures and a detached
`HEAD` both give `none`). -/
def currentBranch (env : Env) (repoRoot : String) : List Eff × Option String :=
  let (es, r) := git env repoRoot ["rev-parse", "--abbrev-ref", "HEAD"] true
  match r with
  | .ok o =>
    let b := strTrim o.stdout
    (es, if b = "HEAD" then none else some b)
  | .error _ => (es, none)

/-- `buildPatch` from src/core/worktree.ts: committed (base..HEAD), staged
(`--cached`) and unstaged diffs, empty sections dropped, joined by `"\n"`. -/
def buildPatch (env : Env) (worktreeDir baseRef : String) :
    List Eff × Except WkError String :=
  let (e1, r1) := git env worktreeDir ["diff", baseRef ++ "..HEAD"] true
  match r1 with
  | .error e => (e1, .error e)
  | .ok o1 =>
    let (e2, r2) := git env worktreeDir ["diff", "--cached"] true
    match r2 with
    | .error e => (e1 ++ e2, .error e)
    | .ok o2 =>
      let (e3, r3) := git env worktreeDir ["diff"] true
      match r3 with
      | .error e => (e1 ++ e2 ++ e3, .error e)
      | .ok o3 =>
        (e1 ++ e2 ++ e3,
         .ok (String.intercalate "\n"
           ([o1.stdout, o2.stdout, o3.stdout].filter (· ≠ ""))))

/-! ## Commands (src/commands.ts) -/

/-- The summary printed by a successful `wk new`. -/
def newSummary (name wkDir repoRoot branchTxt : String) : String :=
  "Created worktree: " ++ name ++ "\nPath: " ++ wkDir ++ "\nRepo: " ++ repoRoot ++
  "\nBranch: " ++ branchTxt ++ "\n\nNext:\n  cd \"" ++ wkDir ++ "\"\n  wk apply " ++ name

/-- `cmdNew` from src/commands.ts. -/
def cmdNew (env : Env) (args : ParsedArgs) : Outcome :=
  match args.pos.get? 1 with
  | none => ⟨[], .error .usageNew⟩
  | some name =>
    if name = "" then ⟨[], .error .usageNew⟩
    else
      let base := (args.pos.get? 2).getD "main"
      let (e1, rr) := resolveRepoRoot env (flagStr args "repo")
      match rr with
      | .error err => ⟨e1, .error err⟩
      | .ok repoRoot =>
        let depot := posixResolve env.cwd ((flagStr args "depot").getD (defaultDepot env.home))
        let wkDir := worktreePath depot repoRoot name
        let e2 := e1 ++ ensureDir (posixDirname wkDir)
        let branch := (flagStr args "branch" (some name)).getD name
        let noBranch := flagBool args "no-branch" false
        if existsNow env e2 wkDir then
          ⟨e2, .error (.alreadyExists wkDir name)⟩
        else if noBranch then
          let (e3, r3) := git env repoRoot ["worktree", "add", wkDir, base]
          match r3 with
          | .error err => ⟨e2 ++ e3, .error err⟩
          | .ok _ =>
            ⟨e2 ++ e3 ++ [.logOut (newSummary name wkDir repoRoot ("(ref: " ++ base ++ ")"))],
             .ok ()⟩
        else
          let (e3, r3) :=
            git env repoRoot ["show-ref", "--verify", "--quiet", "refs/heads/" ++ branch] true
          let branchExists := match r3 with | .ok _ => true | .error _ => false
          let (e4, r4) :=
            if branchExists then git env repoRoot ["worktree", "add", wkDir, branch]
            else git env repoRoot ["worktree", "add", "-b", branch, wkDir, base]
          match r4 with
          | .error err => ⟨e2 ++ e3 ++ e4, .error err⟩
          | .ok _ =>
            ⟨e2 ++ e3 ++ e4 ++ [.logOut (newSummary name wkDir repoRoot branch)], .ok ()⟩

/-- `cmdList` from src/commands.ts (both root resolutions funnel the
`--repo` flag through the same fallback-to-cwd behaviour). -/
def cmdList (env : Env) (args : ParsedArgs) : Outcome :=
  let repoArg := flagStr args "repo"
  let (e1, rr) := resolveRepoRoot env repoArg
  match rr with
  | .error err => ⟨e1, .error err⟩
  | .ok repoRoot =>
    let all := flagBool args "all" false
    if all then
      let (e2, rr2) := resolveRepoRoot env (flagStr args "repo")
      match rr2 with
      | .error err => ⟨e1 ++ e2, .error err⟩
      | .ok root =>
        let (e3, r3) := git env root ["worktree", "list"]
        match r3 with
        | .error err => ⟨e1 ++ e2 ++ e3, .error err⟩
        | .ok o => ⟨e1 ++ e2 ++ e3 ++ [.logOut o.stdout], .ok ()⟩
    else
      let (e3, r3) := git env repoRoot ["worktree", "list"]
      match r3 with
      | .error err => ⟨e1 ++ e3, .error err⟩
      | .ok o => ⟨e1 ++ e3 ++ [.logOut o.stdout], .ok ()⟩

/-- The warning `cmdApply` prints before aborting `--switch` on a dirty repo. -/
def switchWarn : String :=
  "Warning: repo has uncommitted changes. Clean your branch before using --switch."

/-- Rendering of an `ApplyMode` into the message template. -/
def modeStr : ApplyMode → String
  | .merge => "merge"
  | .rebase => "rebase"
  | .patch => "patch"

/-- The non-fatal warning about uncommitted worktree changes. -/
def dirtyWorktreeWarn (mode name : String) : String :=
  "Warning: worktree has uncommitted changes; " ++ mode ++ " will NOT include them.\n" ++
  "Tip: commit them, or use: wk apply " ++ name ++ " --patch\n"

/-- The `try` block of `cmdApply` (checkout of the target followed by the
mode-specific merge/rebase/patch work). -/
def applyBody (env : Env) (name target : String) (mode : ApplyMode) (noFF : Bool)
    (message : Option String) (repoRoot wkDir baseRef : String) :
    List Eff × Except WkError Unit :=
  let (c1, r1) := git env repoRoot ["checkout", target]
  match r1 with
  | .error err => (c1, .error err)
  | .ok _ =>
    match mode with
    | .merge =>
      let margs := ["merge"] ++ (if noFF then ["--no-ff"] else []) ++ [name]
      let (c2, r2) := git env repoRoot margs
      match r2 with
      | .error err => (c1 ++ c2, .error err)
      | .ok _ =>
        (c1 ++ c2 ++ [.logOut ("Applied (merge): " ++ name ++ " -> " ++ target)], .ok ())
    | .rebase =>
      let (c2, r2) := git env wkDir ["checkout", name]
      match r2 with
      | .error err => (c1 ++ c2, .error err)
      | .ok _ =>
        let (c3, r3) := git env wkDir ["rebase", target]
        match r3 with
        | .error err => (c1 ++ c2 ++ c3, .error err)
        | .ok _ =>
          let (c4, r4) := git env repoRoot ["checkout", target]
          match r4 with
          | .error err => (c1 ++ c2 ++ c3 ++ c4, .error err)
          | .ok _ =>
            let (c5, r5) := git env repoRoot ["merge", "--ff-only", name]
            match r5 with
            | .error err => (c1 ++ c2 ++ c3 ++ c4 ++ c5, .error err)
            | .ok _ =>
              (c1 ++ c2 ++ c3 ++ c4 ++ c5 ++
                [.logOut ("Applied (rebase+ff): " ++ name ++ " -> " ++ target)], .ok ())
    | .patch =>
      let (c2, rp) := buildPatch env wkDir baseRef
      match rp with
      | .error err => (c1 ++ c2, .error err)
      | .ok patchText =>
        if strTrim patchText = "" then
          (c1 ++ c2 ++ [.logOut "No changes to apply (patch is empty)."], .ok ())
        else
          let normalized := if patchText.data.getLast? = some '\n' then patchText else patchText ++ "\n"
          let tempPatchPath := posixJoin
            [env.tmpdir, "wk-apply-" ++ sanitizeSeg name ++ "-" ++ toString env.now ++ ".patch"]
          let c3 := [Eff.writeFile tempPatchPath normalized]
          let (c4, r4) := git env repoRoot ["apply", "--index", tempPatchPath]
          let c5 := [Eff.rmFile tempPatchPath]
          match r4 with
          | .error err => (c1 ++ c2 ++ c3 ++ c4 ++ c5, .error err)
          | .ok _ =>
            match message with
            | some msg =>
              if msg ≠ "" then
                let (c6, r6) := git env repoRoot ["commit", "-m", msg]
                match r6 with
                | .error err => (c1 ++ c2 ++ c3 ++ c4 ++ c5 ++ c6, .error err)
                | .ok _ =>
                  (c1 ++ c2 ++ c3 ++ c4 ++ c5 ++ c6 ++
                    [.logOut ("Applied (patch) and committed to " ++ target ++ ": " ++ msg)],
                   .ok ())
              else
                (c1 ++ c2 ++ c3 ++ c4 ++ c5 ++
                  [.logOut ("Applied (patch) to " ++ target ++
                    ". Changes are staged (git apply --index)."),
                   .logOut "Tip: commit with: git commit -m \"...\""], .ok ())
            | none =>
              (c1 ++ c2 ++ c3 ++ c4 ++ c5 ++
                [.logOut ("Applied (patch) to " ++ target ++
                  ". Changes are staged (git apply --index)."),
                 .logOut "Tip: commit with: git commit -m \"...\""], .ok ())

/-- `cmdApply` from src/commands.ts. -/
def cmdApply (env : Env) (args : ParsedArgs) : Outcome :=
  match args.pos.get? 1 with
  | none => ⟨[], .error .usageApply⟩
  | some name =>
  if name = "" then ⟨[], .error .usageApply⟩
  else
  let (e1, rr) := resolveRepoRoot env (flagStr args "repo")
  match rr with
  | .error err => ⟨e1, .error err⟩
  | .ok repoRoot =>
  let depot := posixResolve env.cwd ((flagStr args "depot").getD (defaultDepot env.home))
  let wkDir := worktreePath depot repoRoot name
  if existsNow env e1 wkDir = false then ⟨e1, .error (.worktreeNotFound wkDir)⟩
  else
  let target := (flagStr args "target" (some "main")).getD "main"
  let merge := flagBool args "merge" false
  let rebase := flagBool args "rebase" false
  let patch := flagBool args "patch" false
  let switchBranch := flagBool args "switch" false
  let noFF := flagBool args "no-ff" false
  let message := flagStr args "message"
  if switchBranch then
    let (e2, rd) := isDirty env repoRoot
    match rd with
    | .error err => ⟨e1 ++ e2, .error err⟩
    | .ok dirty =>
      if dirty then ⟨e1 ++ e2 ++ [.logErr switchWarn], .error .dirtySwitchAbort⟩
      else
        let (e3, wkBranch) := currentBranch env wkDir
        let detach : List Eff × Except WkError Unit :=
          if wkBranch = some name then
            let (e4, r4) := git env wkDir ["checkout", "--detach"]
            (e4, r4.map (fun _ => ()))
          else ([], .ok ())
        match detach with
        | (e4, .error err) => ⟨e1 ++ e2 ++ e3 ++ e4, .error err⟩
        | (e4, .ok _) =>
          let (e5, r5) := git env repoRoot ["checkout", name]
          match r5 with
          | .error err => ⟨e1 ++ e2 ++ e3 ++ e4 ++ e5, .error err⟩
          | .ok _ =>
            ⟨e1 ++ e2 ++ e3 ++ e4 ++ e5 ++
              [.logOut ("Applied (switch): checked out branch " ++ name ++ " in repo.")],
             .ok ()⟩
  else
  let mode := resolveApplyMode ⟨merge, rebase, patch⟩
  let mainDirtyCheck : List Eff × Except WkError Bool :=
    if mode ≠ ApplyMode.patch then isDirty env repoRoot else ([], .ok false)
  match mainDirtyCheck with
  | (e2, .error err) => ⟨e1 ++ e2, .error err⟩
  | (e2, .ok dirtyMainRepo) =>
  if dirtyMainRepo then ⟨e1 ++ e2, .error .dirtyMain⟩
  else
  let (e3, rb) := git env repoRoot ["merge-base", target, name] true
  let baseRef := match rb with
    | .ok o => if strTrim o.stdout ≠ "" then strTrim o.stdout else target
    | .error _ => target
  let wkDirtyCheck : List Eff × Except WkError Bool :=
    if mode ≠ ApplyMode.patch then isDirty env wkDir else ([], .ok false)
  match wkDirtyCheck with
  | (e4, .error err) => ⟨e1 ++ e2 ++ e3 ++ e4, .error err⟩
  | (e4, .ok wkDirty) =>
  let e5 := if wkDirty then [Eff.logErr (dirtyWorktreeWarn (modeStr mode) name)] else []
  let (e6, priorBranch) := currentBranch env repoRoot
  let body := applyBody env name target mode noFF message repoRoot wkDir baseRef
  let fin : List Eff :=
    match priorBranch with
    | some b => if b ≠ target then (git env repoRoot ["checkout", b] true).1 else []
    | none => []
  ⟨e1 ++ e2 ++ e3 ++ e4 ++ e5 ++ e6 ++ body.1 ++ fin, body.2⟩

/-! ## Auxiliary notions used by the claims -/

/-- The lowercase hex digits. -/
def hexDigits : List Char :=
  ("0123456789abcdef" : String).data

/-- Claim C5's "differ only in the final path segment": the `/`-separated
segment lists agree after dropping the last segment. -/
def differOnlyInFinalSeg (p q : String) : Prop :=
  (splitSlash p.data).dropLast = (splitSlash q.data).dropLast

instance (p q : String) : Decidable (differOnlyInFinalSeg p q) := by
  unfold differOnlyInFinalSeg; infer_instance

/-- A plain single path segment: nonempty, separator-free, and not one of
the special `.`/`..` components (the shape every real worktree name has). -/
def plainSeg (n : String) : Prop :=
  n ≠ "" ∧ '/' ∉ n.data ∧ n ≠ "." ∧ n ≠ ".."

/-- Modelled from the spec's words for the boolean-flag accessor
("if a string `"true"`/`"false"` was stored, coerce accordingly;
otherwise returns a caller-supplied default"): any other stored string
yields the default.  For comparison with `flagBool`. -/
def flagBoolSpec (args : ParsedArgs) (key : String) (fallback : Bool) : Bool :=
  match getFlag args key with
  | some (.bool b) => b
  | some (.str s) =>
    if s = "true" then true else if s = "false" then false else fallback
  | none => fallback

/-- Modelled from the claim's words for `buildPatch` ("non-empty sections
joined with blank-line separation"): a `"\n\n"` separator between the kept
sections.  For comparison with `buildPatch`'s actual `"\n"` join. -/
def buildPatchSpecJoin (committed staged unstaged : String) : String :=
  String.intercalate "\n\n" ([committed, staged, unstaged].filter (· ≠ ""))

/-- Whether an effect is console output. -/
def isConsoleEff : Eff → Bool
  | .logOut _ => true
  | .logErr _ => true
  | _ => false

/-- The console lines of an outcome (its stdout/stderr behaviour). -/
def visibleLog (o : Outcome) : List Eff :=
  o.effs.filter isConsoleEff

/-- The repository root `resolveRepoRoot` reports when its query succeeds. -/
def rootOf (env : Env) (repoArg : Option String) : String :=
  strTrim (strTrimRight (env.exec (rootCwd env repoArg) ["git", "rev-parse", "--show-toplevel"]).stdout)

/-- The resolved depot directory of a command invocation. -/
def depotOf (env : Env) (args : ParsedArgs) : String :=
  posixResolve env.cwd ((flagStr args "depot").getD (defaultDepot env.home))

/-! # Theorems -/

/-- C3: `resolveApplyMode` uses the fixed precedence patch > rebase > merge
and defaults to merge: the three documented instances hold, any flag set
with `patch` yields `patch`, `rebase` without `patch` yields `rebase`, and
without `patch` and `rebase` the result is `merge` (whether or not `merge`
is set). -/
theorem resolveApplyMode_precedence :
    resolveApplyMode ⟨true, true, true⟩ = ApplyMode.patch ∧
    resolveApplyMode ⟨true, true, false⟩ = ApplyMode.rebase ∧
    resolveApplyMode ⟨false, false, false⟩ = ApplyMode.merge ∧
    (∀ m r : Bool, resolveApplyMode ⟨m, r, true⟩ = ApplyMode.patch) ∧
    (∀ m : Bool, resolveApplyMode ⟨m, true, false⟩ = ApplyMode.rebase) ∧
    (∀ m : Bool, resolveApplyMode ⟨m, false, false⟩ = ApplyMode.merge) := by
  decide

/-- C6 counterexample: with the string `"maybe"` stored under `all`,
`flagBool` returns `false` (the comparison with `"true"`), not the
caller-supplied default `true` that the claim prescribes for strings other
than `"true"`/`"false"` (shown by the spec-worded accessor). -/
theorem flagBool_other_string_counterexample :
    flagBool ⟨[], [("all", .str "maybe")]⟩ "all" true = false ∧
    flagBoolSpec ⟨[], [("all", .str "maybe")]⟩ "all" true = true ∧
    flagBool ⟨[], [("all", .str "maybe")]⟩ "all" true ≠
      flagBoolSpec ⟨[], [("all", .str "maybe")]⟩ "all" true := by
  decide

/-- C6 amended: `flagBool` returns the stored boolean; for a stored string
it returns the comparison `s == "true"` (so `"true"` ↦ `true`, `"false"` ↦
`false`, and any other string ↦ `false`); the caller-supplied default is
returned only when the flag is absent.  The spec's concrete coercion cases
hold through the parser. -/
theorem flagBool_semantics :
    (∀ (a : ParsedArgs) (k : String) (d b : Bool),
      getFlag a k = some (.bool b) → flagBool a k d = b) ∧
    (∀ (a : ParsedArgs) (k : String) (d : Bool) (s : String),
      getFlag a k = some (.str s) → flagBool a k d = (s == "true")) ∧
    (∀ (a : ParsedArgs) (k : String) (d : Bool),
      getFlag a k = none → flagBool a k d = d) ∧
    flagBool (parseCliArgs ["list", "--all=false", "--help=true"]) "all" true = false ∧
    flagBool (parseCliArgs ["list", "--all=false", "--help=true"]) "help" false = true := by
  refine ⟨?_, ?_, ?_, by decide, by decide⟩ <;>
    · intro a k d
      first
      | (intro s h; simp [flagBool, h])
      | (intro h; simp [flagBool, h])

/-- C6 amended, applied: a stored string `"maybe"` makes `flagBool` return
the comparison with `"true"`. -/
theorem flagBool_semantics_witness :
    flagBool ⟨[], [("all", .str "maybe")]⟩ "all" true = ("maybe" == "true") :=
  flagBool_semantics.2.1 ⟨[], [("all", .str "maybe")]⟩ "all" true "maybe" (by decide)

/-- C7 counterexample: for the boolean-typed flag `--all` followed by the
token `x` (which exists and does not start with `-`), the parser stores
boolean `true` and treats `x` as a positional instead of consuming it as
the flag's string value as the claim prescribes. -/
theorem parse_lone_long_counterexample :
    getFlag (parseCliArgs ["--all", "x"]) "all" = some (.bool true) ∧
    (parseCliArgs ["--all", "x"]).pos = ["x"] ∧
    getFlag (parseCliArgs ["--all", "x"]) "all" ≠ some (.str "x") := by
  decide

/-- A `--name` token whose name does not contain `=` past its first
character leaves the tail of the name `=`-free. -/
lemma contains_eq_false_tail {c : Char} {cs : List Char}
    (h : (c :: cs).contains '=' = false) : ¬ ('=' ∈ cs) := by
  simp [List.contains] at h
  exact h.2

/-- A token that does not start with `-` is consumed as a positional. -/
lemma tokenize_positional (arg : String) (rest : List String)
    (h : arg.data.head? ≠ some '-') :
    tokenize (arg :: rest) = ((tokenize rest).1, arg :: (tokenize rest).2) := by
  simp only [tokenize]
  split
  · simp_all
  · simp_all
  · simp_all
  · rfl

/-- C7 amended: for a `--name` token without `=`, only the options whose
`optionSpec` type is `string` consume a following token — and they do so
whenever a next token exists, even one starting with `-`; boolean-typed
and unknown flags are recorded as boolean `true` and never consume the
next token; with no next token every flag becomes boolean `true`. -/
theorem parse_lone_long_semantics :
    (∀ (c : Char) (cs : List Char) (v : String),
      (c :: cs).contains '=' = false →
      optionSpec ⟨c :: cs⟩ = some .string →
      parseCliArgs [⟨'-' :: '-' :: c :: cs⟩, v] = ⟨[], [(⟨c :: cs⟩, .str v)]⟩) ∧
    (∀ (c : Char) (cs : List Char) (v : String),
      (c :: cs).contains '=' = false →
      optionSpec ⟨c :: cs⟩ ≠ some .string → v.data.head? ≠ some '-' →
      parseCliArgs [⟨'-' :: '-' :: c :: cs⟩, v] = ⟨[v], [(⟨c :: cs⟩, .bool true)]⟩) ∧
    (∀ (c : Char) (cs : List Char),
      (c :: cs).contains '=' = false →
      parseCliArgs [⟨'-' :: '-' :: c :: cs⟩] = ⟨[], [(⟨c :: cs⟩, .bool true)]⟩) := by
  refine ⟨?_, ?_, ?_⟩
  · intro c cs v hEq hStr
    simp [parseCliArgs, tokenize, contains_eq_false_tail hEq, hStr]
  · intro c cs v hEq hStr hv
    simp [parseCliArgs, tokenize_positional v [] hv, tokenize,
      contains_eq_false_tail hEq, hStr]
  · intro c cs hEq
    simp [parseCliArgs, tokenize, contains_eq_false_tail hEq]

/-- C7 amended, applied: the string-typed `--repo` consumes `x`; the
boolean-typed `--all` does not and `x` stays positional. -/
theorem parse_lone_long_semantics_witness :
    parseCliArgs ["--repo", "x"] = ⟨[], [("repo", .str "x")]⟩ ∧
    parseCliArgs ["--all", "x"] = ⟨["x"], [("all", .bool true)]⟩ :=
  ⟨parse_lone_long_semantics.1 'r' "epo".data "x" (by decide) (by decide),
   parse_lone_long_semantics.2.1 'a' "ll".data "x" (by decide) (by decide) (by decide)⟩


lemma sha1Words_shape (s : String) : ∃ a b c d e, sha1Words s = [a, b, c, d, e] := by
  unfold sha1Words
  generalize (chunks64 (sha1Pad (utf8Bytes s))).foldl sha1Compress
    (0x67452301, 0xEFCDAB89, 0x98BADCFE, 0x10325476, 0xC3D2E1F0) = x
  obtain ⟨a, b, c, d, e⟩ := x
  exact ⟨a, b, c, d, e, rfl⟩

lemma mem_wordHexChars {ch : Char} {w : Nat} (h : ch ∈ wordHexChars w) :
    ch ∈ hexDigits := by
  have hx : ∀ m : Nat, m < 16 → nibbleChar m ∈ hexDigits := by decide
  simp [wordHexChars] at h
  rcases h with rfl | rfl | rfl | rfl | rfl | rfl | rfl | rfl <;>
    exact hx _ (Nat.mod_lt _ (by norm_num))

lemma sha1Hex_data_spec (s : String) :
    (sha1Hex s).data.length = 40 ∧ ∀ ch ∈ (sha1Hex s).data, ch ∈ hexDigits := by
  obtain ⟨a, b, c, d, e, h⟩ := sha1Words_shape s
  constructor
  · simp [sha1Hex, h, wordHexChars]
  · intro ch hch
    simp [sha1Hex, h] at hch
    rcases hch with h1 | h1 | h1 | h1 | h1 <;> exact mem_wordHexChars h1

/-- C4: `repoIdFromRoot r` equals the basename of `r` with every character
outside `[A-Za-z0-9._-]` replaced by `_`, followed by a separator and the
first 10 characters of the SHA-1 hex digest of the full root string; that
slice has length 10 and consists of hexadecimal digits, every character of
the sanitized basename is in the safe set, and the function is pure and
deterministic: equal inputs always yield the identical identity string. -/
theorem repoIdFromRoot_spec (r : String) :
    repoIdFromRoot r =
      sanitizeSeg (posixBasename r) ++ "-" ++ String.mk ((sha1Hex r).data.take 10) ∧
    ((sha1Hex r).data.take 10).length = 10 ∧
    (∀ ch ∈ (sha1Hex r).data.take 10, ch ∈ hexDigits) ∧
    (∀ ch ∈ (sanitizeSeg (posixBasename r)).data, safeChar ch = true) ∧
    (∀ r2 : String, r2 = r → repoIdFromRoot r2 = repoIdFromRoot r) := by
  refine ⟨rfl, ?_, ?_, ?_, ?_⟩
  · rw [List.length_take]
    have := (sha1Hex_data_spec r).1
    omega
  · intro ch hch
    exact (sha1Hex_data_spec r).2 ch (List.mem_of_mem_take hch)
  · intro ch hch
    simp [sanitizeSeg] at hch
    obtain ⟨x, hx, hxe⟩ := hch
    by_cases hs : safeChar x
    · simp [hs] at hxe
      rw [← hxe]
      exact hs
    · simp [hs] at hxe
      rw [← hxe]
      decide
  · intro r2 h
    rw [h]

set_option maxRecDepth 10000 in
theorem repoIdFromRoot_spec_witness :
    repoIdFromRoot "/tmp/repo" =
      sanitizeSeg (posixBasename "/tmp/repo") ++ "-" ++
        String.mk ((sha1Hex "/tmp/repo").data.take 10) ∧
    'd' ∈ hexDigits :=
  ⟨(repoIdFromRoot_spec "/tmp/repo").1,
   (repoIdFromRoot_spec "/tmp/repo").2.2.1 'd' (by decide)⟩



/-- C8 counterexample to blank-line separation: with a committed section
`"a"`, empty staged section, and unstaged section `"b"`, `buildPatch`
produces `"a\nb"` (sections joined with a single newline), while the
spec-worded blank-line join would produce `"a\n\nb"`; the two differ. -/
theorem buildPatch_blank_line_counterexample :
    (buildPatch
      { exec := fun _ cmd =>
          if cmd = ["git", "diff", "base..HEAD"] then ⟨"a", "", 0⟩
          else if cmd = ["git", "diff", "--cached"] then ⟨"b", "", 0⟩
          else ⟨"", "", 0⟩,
        cwd := "/", home := "/", fs0 := fun _ => false, tmpdir := "/tmp", now := 0 }
      "/w" "base").2 = .ok "a\nb" ∧
    buildPatchSpecJoin "a" "b" "" = "a\n\nb" ∧
    ("a\nb" : String) ≠ "a\n\nb" :=
  ⟨by rfl, by rfl, by decide⟩

/-- C8 amended: `buildPatch` runs exactly the three diffs in order —
committed work from the base reference to HEAD, the staged diff, and the
unstaged diff — trims each output's trailing whitespace, drops the empty
sections, and joins the remaining ones with a single newline `"\n"` (not a
blank line). -/
theorem buildPatch_sections (env : Env) (wkDir baseRef : String)
    (h1 : (env.exec wkDir ["git", "diff", baseRef ++ "..HEAD"]).exitCode = 0)
    (h2 : (env.exec wkDir ["git", "diff", "--cached"]).exitCode = 0)
    (h3 : (env.exec wkDir ["git", "diff"]).exitCode = 0) :
    buildPatch env wkDir baseRef =
      ([.call wkDir ["git", "diff", baseRef ++ "..HEAD"] true,
        .call wkDir ["git", "diff", "--cached"] true,
        .call wkDir ["git", "diff"] true],
       .ok (String.intercalate "\n"
         ([strTrimRight (env.exec wkDir ["git", "diff", baseRef ++ "..HEAD"]).stdout,
           strTrimRight (env.exec wkDir ["git", "diff", "--cached"]).stdout,
           strTrimRight (env.exec wkDir ["git", "diff"]).stdout].filter (· ≠ "")))) := by
  simp [buildPatch, git, run, h1, h2, h3]

/-- C8 witness. -/
theorem buildPatch_sections_witness :
    buildPatch
      { exec := fun _ cmd =>
          if cmd = ["git", "diff", "base..HEAD"] then ⟨"a", "", 0⟩
          else if cmd = ["git", "diff", "--cached"] then ⟨"b", "", 0⟩
          else ⟨"", "", 0⟩,
        cwd := "/", home := "/", fs0 := fun _ => false, tmpdir := "/tmp", now := 0 }
      "/w" "base" =
      ([.call "/w" ["git", "diff", "base..HEAD"] true,
        .call "/w" ["git", "diff", "--cached"] true,
        .call "/w" ["git", "diff"] true], .ok "a\nb") := by
  have h := buildPatch_sections
    { exec := fun _ cmd =>
        if cmd = ["git", "diff", "base..HEAD"] then ⟨"a", "", 0⟩
        else if cmd = ["git", "diff", "--cached"] then ⟨"b", "", 0⟩
        else ⟨"", "", 0⟩,
      cwd := "/", home := "/", fs0 := fun _ => false, tmpdir := "/tmp", now := 0 }
    "/w" "base" (by rfl) (by rfl) (by rfl)
  exact h.trans (by rfl)


lemma resolveRepoRoot_ok_effs (env : Env) (repoArg : Option String) (root : String)
    (h : (resolveRepoRoot env repoArg).2 = .ok root) :
    (resolveRepoRoot env repoArg).1 =
      [.call (rootCwd env repoArg) ["git", "rev-parse", "--show-toplevel"] true] ∧
    root = rootOf env repoArg := by
  unfold resolveRepoRoot git run at h ⊢
  by_cases hc : (env.exec (rootCwd env repoArg) ["git", "rev-parse", "--show-toplevel"]).exitCode = 0
  · by_cases hr : strTrim (strTrimRight (env.exec (rootCwd env repoArg)
        ["git", "rev-parse", "--show-toplevel"]).stdout) = ""
    · simp [hc, hr] at h
    · simp [hc, hr] at h ⊢
      simp [rootOf, ← h]
  · simp [hc] at h

/-- C9: `list` with `--all` behaves exactly like `list` without it: any two
argument records that agree on `--repo` give the same result and the same
console output, and in the `--all` path the command resolves the same
single repository root (twice) and prints that one repository's native
`git worktree list` output — no aggregation across repositories occurs. -/
theorem cmdList_all_equiv :
    (∀ (env : Env) (a b : ParsedArgs), flagStr a "repo" = flagStr b "repo" →
      (cmdList env a).result = (cmdList env b).result ∧
      visibleLog (cmdList env a) = visibleLog (cmdList env b)) ∧
    (∀ (env : Env) (args : ParsedArgs),
      (env.exec (rootCwd env (flagStr args "repo"))
        ["git", "rev-parse", "--show-toplevel"]).exitCode = 0 →
      rootOf env (flagStr args "repo") ≠ "" →
      (env.exec (rootOf env (flagStr args "repo"))
        ["git", "worktree", "list"]).exitCode = 0 →
      flagBool args "all" false = true →
      cmdList env args =
        ⟨[.call (rootCwd env (flagStr args "repo")) ["git", "rev-parse", "--show-toplevel"] true,
          .call (rootCwd env (flagStr args "repo")) ["git", "rev-parse", "--show-toplevel"] true,
          .call (rootOf env (flagStr args "repo")) ["git", "worktree", "list"] false,
          .logOut (strTrimRight (env.exec (rootOf env (flagStr args "repo"))
            ["git", "worktree", "list"]).stdout)],
         .ok ()⟩) := by
  constructor
  · intro env a b hrepo
    simp only [cmdList, hrepo]
    rcases hres : resolveRepoRoot env (flagStr b "repo") with ⟨es, r⟩
    rcases r with e | root
    · simp [visibleLog]
    · have hes := resolveRepoRoot_ok_effs env (flagStr b "repo") root (by rw [hres])
      have hes1 : es = [.call (rootCwd env (flagStr b "repo"))
          ["git", "rev-parse", "--show-toplevel"] true] := by
        have h1 := hes.1
        rwa [hres] at h1
      rcases hl : git env root ["worktree", "list"] false with ⟨e3, r3⟩
      rcases r3 with e | o <;>
        by_cases ha : flagBool a "all" false <;>
        by_cases hb : flagBool b "all" false <;>
          simp [ha, hb, hres, hl, visibleLog, hes1, isConsoleEff]
  · intro env args h1 h2 h3 h4
    simp only [rootOf] at h2 h3 ⊢
    simp [cmdList, resolveRepoRoot, git, run, h1, h2, h3, h4]


theorem cmdList_all_equiv_witness :
    ((cmdList
      { exec := fun cwd cmd =>
          if cmd = ["git", "rev-parse", "--show-toplevel"] then ⟨"/repo", "", 0⟩
          else if cwd = "/repo" ∧ cmd = ["git", "worktree", "list"] then ⟨"wt", "", 0⟩
          else ⟨"", "", 1⟩,
        cwd := "/", home := "/h", fs0 := fun _ => true, tmpdir := "/tmp", now := 0 }
      (parseCliArgs ["list", "--all"])).result =
     (cmdList
      { exec := fun cwd cmd =>
          if cmd = ["git", "rev-parse", "--show-toplevel"] then ⟨"/repo", "", 0⟩
          else if cwd = "/repo" ∧ cmd = ["git", "worktree", "list"] then ⟨"wt", "", 0⟩
          else ⟨"", "", 1⟩,
        cwd := "/", home := "/h", fs0 := fun _ => true, tmpdir := "/tmp", now := 0 }
      (parseCliArgs ["list"])).result) ∧
    cmdList
      { exec := fun cwd cmd =>
          if cmd = ["git", "rev-parse", "--show-toplevel"] then ⟨"/repo", "", 0⟩
          else if cwd = "/repo" ∧ cmd = ["git", "worktree", "list"] then ⟨"wt", "", 0⟩
          else ⟨"", "", 1⟩,
        cwd := "/", home := "/h", fs0 := fun _ => true, tmpdir := "/tmp", now := 0 }
      (parseCliArgs ["list", "--all"]) =
      ⟨[.call "/" ["git", "rev-parse", "--show-toplevel"] true,
        .call "/" ["git", "rev-parse", "--show-toplevel"] true,
        .call "/repo" ["git", "worktree", "list"] false,
        .logOut "wt"],
       .ok ()⟩ :=
  ⟨(cmdList_all_equiv.1 _ (parseCliArgs ["list", "--all"]) (parseCliArgs ["list"])
      (by rfl)).1,
   (cmdList_all_equiv.2
      { exec := fun cwd cmd =>
          if cmd = ["git", "rev-parse", "--show-toplevel"] then ⟨"/repo", "", 0⟩
          else if cwd = "/repo" ∧ cmd = ["git", "worktree", "list"] then ⟨"wt", "", 0⟩
          else ⟨"", "", 1⟩,
        cwd := "/", home := "/h", fs0 := fun _ => true, tmpdir := "/tmp", now := 0 }
      (parseCliArgs ["list", "--all"]) (by rfl) (by decide) (by rfl) (by rfl)).trans
    (by rfl)⟩


lemma run_error_shape (env : Env) (cmd : List String) (cwd : String) (q : Bool)
    (e : WkError) (h : (run env cmd cwd q).2 = .error e) :
    e = .commandFailed (env.exec cwd cmd).exitCode cmd := by
  unfold run at h
  by_cases hc : (env.exec cwd cmd).exitCode = 0 <;> simp [hc] at h
  exact h.symm

lemma resolveRepoRoot_error_shape (env : Env) (repoArg : Option String)
    (e : WkError) (h : (resolveRepoRoot env repoArg).2 = .error e) :
    e = .dieNotRepo ∨ e = .dieNoRoot := by
  unfold resolveRepoRoot git run at h
  by_cases hc : (env.exec (rootCwd env repoArg) ["git", "rev-parse", "--show-toplevel"]).exitCode = 0
  · by_cases hr : strTrim (strTrimRight (env.exec (rootCwd env repoArg)
        ["git", "rev-parse", "--show-toplevel"]).stdout) = "" <;> simp [hc, hr] at h
    exact Or.inr h.symm
  · simp [hc] at h
    exact Or.inl h.symm

lemma isDirty_error_shape (env : Env) (p : String) (e : WkError)
    (h : (isDirty env p).2 = .error e) : ∃ c cmd, e = .commandFailed c cmd := by
  unfold isDirty git at h
  rcases hr : run env ("git" :: ["status", "--porcelain"]) p true with ⟨es, r⟩
  rw [hr] at h
  rcases r with e' | o
  · simp [Except.map] at h
    subst h
    exact ⟨_, _, run_error_shape env _ p true e' (by rw [hr])⟩
  · simp [Except.map] at h

lemma buildPatch_error_shape (env : Env) (w b : String) (e : WkError)
    (h : (buildPatch env w b).2 = .error e) : ∃ c cmd, e = .commandFailed c cmd := by
  unfold buildPatch git at h
  rcases h1 : run env ("git" :: ["diff", b ++ "..HEAD"]) w true with ⟨e1, r1⟩
  rw [h1] at h
  rcases r1 with e' | o1
  · simp at h; subst h
    exact ⟨_, _, run_error_shape env _ w true e' (by rw [h1])⟩
  · rcases h2 : run env ("git" :: ["diff", "--cached"]) w true with ⟨e2, r2⟩
    rw [h2] at h
    rcases r2 with e' | o2
    · simp at h; subst h
      exact ⟨_, _, run_error_shape env _ w true e' (by rw [h2])⟩
    · rcases h3 : run env ("git" :: ["diff"]) w true with ⟨e3, r3⟩
      rw [h3] at h
      rcases r3 with e' | o3
      · simp at h; subst h
        exact ⟨_, _, run_error_shape env _ w true e' (by rw [h3])⟩
      · simp at h


lemma strLength_pos {s : String} (h : s ≠ "") : 0 < s.length := by
  rcases hx : s.data with _ | ⟨c, cs⟩
  · exact absurd (String.ext (show s.data = "".data from hx)) h
  · show 0 < s.data.length
    simp [hx]

/-- C1: when `apply --switch` targets a dirty main repository (non-empty
`git status --porcelain` output), the whole run consists of the read-only
root resolution and status query followed by the warning on error output,
and it fails with the distinct abort error rendering exactly as
"Aborting apply --switch with dirty repo."; no effect in the trace invokes
checkout, merge, rebase, commit, apply or worktree, so the repository's
current branch is left unchanged. -/
theorem apply_switch_dirty_aborts (env : Env) (args : ParsedArgs) (name : String)
    (hname : args.pos.get? 1 = some name) (hne : name ≠ "")
    (hswitch : flagBool args "switch" false = true)
    (hrev : (env.exec (rootCwd env (flagStr args "repo"))
      ["git", "rev-parse", "--show-toplevel"]).exitCode = 0)
    (hroot : rootOf env (flagStr args "repo") ≠ "")
    (hfs : env.fs0 (worktreePath (depotOf env args)
      (rootOf env (flagStr args "repo")) name) = true)
    (hst : (env.exec (rootOf env (flagStr args "repo"))
      ["git", "status", "--porcelain"]).exitCode = 0)
    (hdirty : strTrim (strTrimRight (env.exec (rootOf env (flagStr args "repo"))
      ["git", "status", "--porcelain"]).stdout) ≠ "") :
    cmdApply env args =
      ⟨[.call (rootCwd env (flagStr args "repo")) ["git", "rev-parse", "--show-toplevel"] true,
        .call (rootOf env (flagStr args "repo")) ["git", "status", "--porcelain"] true,
        .logErr switchWarn],
       .error .dirtySwitchAbort⟩ ∧
    WkError.dirtySwitchAbort.render = "Aborting apply --switch with dirty repo." ∧
    (∀ cwd cmd q, Eff.call cwd cmd q ∈ (cmdApply env args).effs →
      "checkout" ∉ cmd ∧ "merge" ∉ cmd ∧ "rebase" ∉ cmd ∧
      "commit" ∉ cmd ∧ "apply" ∉ cmd ∧ "worktree" ∉ cmd) := by
  have hd : 0 < (strTrim (strTrimRight (env.exec (rootOf env (flagStr args "repo"))
      ["git", "status", "--porcelain"]).stdout)).length := strLength_pos hdirty
  simp only [rootOf] at hroot hfs hst hd ⊢
  simp only [depotOf] at hfs
  have hmain : cmdApply env args =
      ⟨[.call (rootCwd env (flagStr args "repo")) ["git", "rev-parse", "--show-toplevel"] true,
        .call (strTrim (strTrimRight (env.exec (rootCwd env (flagStr args "repo"))
          ["git", "rev-parse", "--show-toplevel"]).stdout)) ["git", "status", "--porcelain"] true,
        .logErr switchWarn],
       .error .dirtySwitchAbort⟩ := by
    simp only [cmdApply, hname]
    simp [hne, resolveRepoRoot, git, run, hrev, hroot, existsNow, hfs,
      hswitch, isDirty, hst, hd, Except.map]
  refine ⟨hmain, rfl, ?_⟩
  intro cwd cmd q hm
  rw [hmain] at hm
  simp at hm
  rcases hm with ⟨_, rfl, _⟩ | ⟨_, rfl, _⟩ <;> refine ⟨?_, ?_, ?_, ?_, ?_, ?_⟩ <;> decide


theorem apply_switch_dirty_aborts_witness :
    cmdApply
      { exec := fun _ cmd =>
          if cmd = ["git", "rev-parse", "--show-toplevel"] then ⟨"/repo", "", 0⟩
          else if cmd = ["git", "status", "--porcelain"] then ⟨" M x", "", 0⟩
          else ⟨"", "", 1⟩,
        cwd := "/", home := "/h", fs0 := fun _ => true, tmpdir := "/tmp", now := 0 }
      (parseCliArgs ["apply", "feat", "--switch"]) =
      ⟨[.call "/" ["git", "rev-parse", "--show-toplevel"] true,
        .call "/repo" ["git", "status", "--porcelain"] true,
        .logErr switchWarn],
       .error .dirtySwitchAbort⟩ := by
  exact (apply_switch_dirty_aborts
    { exec := fun _ cmd =>
        if cmd = ["git", "rev-parse", "--show-toplevel"] then ⟨"/repo", "", 0⟩
        else if cmd = ["git", "status", "--porcelain"] then ⟨" M x", "", 0⟩
        else ⟨"", "", 1⟩,
      cwd := "/", home := "/h", fs0 := fun _ => true, tmpdir := "/tmp", now := 0 }
    (parseCliArgs ["apply", "feat", "--switch"]) "feat"
    (by rfl) (by decide) (by rfl) (by rfl) (by decide) (by rfl) (by rfl) (by decide)).1.trans
    (by rfl)


lemma applyBody_error_shape (env : Env) (name target : String) (mode : ApplyMode)
    (noFF : Bool) (message : Option String) (repoRoot wkDir baseRef : String)
    (e : WkError)
    (h : (applyBody env name target mode noFF message repoRoot wkDir baseRef).2 = .error e) :
    ∃ c cmd, e = .commandFailed c cmd := by
  unfold applyBody git at h
  cases mode <;>
    · simp at h
      repeat' split at h
      all_goals
        first
        | (simp at h; done)
        | (simp at h; subst h
           first
           | exact ⟨_, _, run_error_shape _ _ _ _ _ (by assumption)⟩
           | exact buildPatch_error_shape _ _ _ _ (by assumption))
        | simp_all


/-- C2: in every non-patch, non-switch mode (merge or rebase, including the
default with no mode flag) a dirty main repository makes `apply` stop right
after the read-only root resolution and status query with the error
rendering exactly as "Main repo has uncommitted changes. Commit/stash them
before apply (or use a clean state)." and no further git effect; whereas in
patch mode this failure can never be the result. -/
theorem apply_nonpatch_dirty_rejected :
    (∀ (env : Env) (args : ParsedArgs) (name : String),
      args.pos.get? 1 = some name → name ≠ "" →
      flagBool args "switch" false = false →
      flagBool args "patch" false = false →
      (env.exec (rootCwd env (flagStr args "repo"))
        ["git", "rev-parse", "--show-toplevel"]).exitCode = 0 →
      rootOf env (flagStr args "repo") ≠ "" →
      env.fs0 (worktreePath (depotOf env args)
        (rootOf env (flagStr args "repo")) name) = true →
      (env.exec (rootOf env (flagStr args "repo"))
        ["git", "status", "--porcelain"]).exitCode = 0 →
      strTrim (strTrimRight (env.exec (rootOf env (flagStr args "repo"))
        ["git", "status", "--porcelain"]).stdout) ≠ "" →
      cmdApply env args =
        ⟨[.call (rootCwd env (flagStr args "repo")) ["git", "rev-parse", "--show-toplevel"] true,
          .call (rootOf env (flagStr args "repo")) ["git", "status", "--porcelain"] true],
         .error .dirtyMain⟩ ∧
      WkError.dirtyMain.render =
        "Main repo has uncommitted changes. Commit/stash them before apply (or use a clean state).") ∧
    (∀ (env : Env) (args : ParsedArgs),
      flagBool args "patch" false = true →
      flagBool args "switch" false = false →
      (cmdApply env args).result ≠ .error .dirtyMain) := by
  constructor
  · intro env args name hname hne hswitch hpatch hrev hroot hfs hst hdirty
    have hd : 0 < (strTrim (strTrimRight (env.exec (rootOf env (flagStr args "repo"))
        ["git", "status", "--porcelain"]).stdout)).length := strLength_pos hdirty
    simp only [rootOf] at hroot hfs hst hd ⊢
    simp only [depotOf] at hfs
    refine ⟨?_, rfl⟩
    simp only [cmdApply, hname]
    cases hm : flagBool args "merge" false <;> cases hrb : flagBool args "rebase" false <;>
      simp [hne, resolveRepoRoot, git, run, hrev, hroot, existsNow, hfs, hswitch,
        hpatch, hm, hrb, resolveApplyMode, isDirty, hst, hd, Except.map]
  · intro env args hpatch hswitch
    have hmode : resolveApplyMode ⟨flagBool args "merge" false,
        flagBool args "rebase" false, flagBool args "patch" false⟩ = .patch := by
      simp [resolveApplyMode, hpatch]
    unfold cmdApply
    rcases hn : args.pos.get? 1 with _ | name
    · simp
    · by_cases hne : name = ""
      · simp [hne]
      · simp only [hne, ite_false, if_false]
        rcases hr : resolveRepoRoot env (flagStr args "repo") with ⟨e1, rr⟩
        rcases rr with err | root
        · have hsh := resolveRepoRoot_error_shape env (flagStr args "repo") err (by rw [hr])
          simp only [hr]
          rcases hsh with rfl | rfl <;> simp
        · simp only [hr, hswitch, hmode]
          simp [hmode, hswitch]
          by_cases hex : existsNow env e1 (worktreePath (posixResolve env.cwd
            ((flagStr args "depot").getD (defaultDepot env.home))) root name) = false
          · simp [hex]
          · simp [hex]
            intro hcon
            obtain ⟨c, cmd, hcc⟩ := applyBody_error_shape _ _ _ _ _ _ _ _ _ _ hcon
            simp at hcc


theorem apply_nonpatch_dirty_rejected_witness :
    cmdApply
      { exec := fun _ cmd =>
          if cmd = ["git", "rev-parse", "--show-toplevel"] then ⟨"/repo", "", 0⟩
          else if cmd = ["git", "status", "--porcelain"] then ⟨" M x", "", 0⟩
          else ⟨"", "", 1⟩,
        cwd := "/", home := "/h", fs0 := fun _ => true, tmpdir := "/tmp", now := 0 }
      (parseCliArgs ["apply", "feat"]) =
      ⟨[.call "/" ["git", "rev-parse", "--show-toplevel"] true,
        .call "/repo" ["git", "status", "--porcelain"] true],
       .error .dirtyMain⟩ ∧
    (cmdApply
      { exec := fun _ cmd =>
          if cmd = ["git", "rev-parse", "--show-toplevel"] then ⟨"/repo", "", 0⟩
          else if cmd = ["git", "status", "--porcelain"] then ⟨" M x", "", 0⟩
          else ⟨"", "", 1⟩,
        cwd := "/", home := "/h", fs0 := fun _ => true, tmpdir := "/tmp", now := 0 }
      (parseCliArgs ["apply", "feat", "--patch"])).result ≠ .error .dirtyMain :=
  ⟨(apply_nonpatch_dirty_rejected.1
      { exec := fun _ cmd =>
          if cmd = ["git", "rev-parse", "--show-toplevel"] then ⟨"/repo", "", 0⟩
          else if cmd = ["git", "status", "--porcelain"] then ⟨" M x", "", 0⟩
          else ⟨"", "", 1⟩,
        cwd := "/", home := "/h", fs0 := fun _ => true, tmpdir := "/tmp", now := 0 }
      (parseCliArgs ["apply", "feat"]) "feat"
      (by rfl) (by decide) (by rfl) (by rfl) (by rfl) (by decide) (by rfl) (by rfl)
      (by decide)).1.trans (by rfl),
   apply_nonpatch_dirty_rejected.2
      { exec := fun _ cmd =>
          if cmd = ["git", "rev-parse", "--show-toplevel"] then ⟨"/repo", "", 0⟩
          else if cmd = ["git", "status", "--porcelain"] then ⟨" M x", "", 0⟩
          else ⟨"", "", 1⟩,
        cwd := "/", home := "/h", fs0 := fun _ => true, tmpdir := "/tmp", now := 0 }
      (parseCliArgs ["apply", "feat", "--patch"]) (by rfl) (by rfl)⟩

lemma mem_selfAndAncestorsAux (fuel : Nat) (p : String) :
    p ∈ selfAndAncestorsAux fuel p := by
  cases fuel with
  | zero => simp [selfAndAncestorsAux]
  | succ n =>
    simp only [selfAndAncestorsAux]
    by_cases h : posixDirname p = p <;> simp [h]

lemma mem_selfAndAncestors (p : String) : p ∈ selfAndAncestors p :=
  mem_selfAndAncestorsAux _ p

/-- C10: whenever `new` fails with the already-exists error for worktree
path `wkd`, the trace already contains the recursive creation of `wkd`'s
parent directory (the per-repository depot namespace `depot/repoId`), and
that directory exists in the post-run filesystem even though the operation
reported failure: the existence check happens only after `ensureDir`. -/
theorem cmdNew_already_exists_mutates (env : Env) (args : ParsedArgs)
    (wkd nm : String)
    (h : (cmdNew env args).result = .error (.alreadyExists wkd nm)) :
    Eff.mkdirp (posixDirname wkd) ∈ (cmdNew env args).effs ∧
    existsNow env (cmdNew env args).effs (posixDirname wkd) = true := by
  unfold cmdNew at h ⊢
  rcases hn : args.pos.get? 1 with _ | name
  · rw [hn] at h
    simp at h
  · rw [hn] at h
    by_cases hne : name = ""
    · simp [hne] at h
    · simp only [hne, ite_false, if_false] at h ⊢
      rcases hr : resolveRepoRoot env (flagStr args "repo") with ⟨e1, rr⟩
      rw [hr] at h
      rcases rr with err | root
      · simp at h
        have := resolveRepoRoot_error_shape env (flagStr args "repo") err (by rw [hr])
        rcases this with rfl | rfl <;> simp_all
      · by_cases hex : existsNow env (e1 ++ ensureDir (posixDirname (worktreePath
          (posixResolve env.cwd ((flagStr args "depot").getD (defaultDepot env.home)))
          root name))) (worktreePath
          (posixResolve env.cwd ((flagStr args "depot").getD (defaultDepot env.home)))
          root name) = true
        · simp only [hex, if_true, ite_true] at h ⊢
          simp at h
          obtain ⟨hwk, hnm⟩ := h
          subst hwk
          constructor
          · simp [ensureDir]
          · simp [existsNow, ensureDir, List.foldl_append, mem_selfAndAncestors]
        · simp [hex] at h
          repeat' split at h
          all_goals
            first
            | (simp at h; done)
            | (exfalso
               have hrun := run_error_shape _ _ _ _ _ (by assumption)
               subst hrun
               simp at h)
            | (exfalso
               rename_i heq hcond
               first
               | (rw [if_pos hcond] at heq
                  have hrun := run_error_shape _ _ _ _ _ heq
                  subst hrun
                  simp at h)
               | (rw [if_neg hcond] at heq
                  have hrun := run_error_shape _ _ _ _ _ heq
                  subst hrun
                  simp at h))


set_option maxRecDepth 10000 in
theorem cmdNew_already_exists_mutates_witness :
    Eff.mkdirp (posixDirname (worktreePath (posixResolve "/" (defaultDepot "/h"))
        "/repo" "feat")) ∈
      (cmdNew
        { exec := fun _ cmd =>
            if cmd = ["git", "rev-parse", "--show-toplevel"] then ⟨"/repo", "", 0⟩
            else ⟨"", "", 1⟩,
          cwd := "/", home := "/h", fs0 := fun _ => true, tmpdir := "/tmp", now := 0 }
        (parseCliArgs ["new", "feat"])).effs ∧
    existsNow
      { exec := fun _ cmd =>
          if cmd = ["git", "rev-parse", "--show-toplevel"] then ⟨"/repo", "", 0⟩
          else ⟨"", "", 1⟩,
        cwd := "/", home := "/h", fs0 := fun _ => true, tmpdir := "/tmp", now := 0 }
      (cmdNew
        { exec := fun _ cmd =>
            if cmd = ["git", "rev-parse", "--show-toplevel"] then ⟨"/repo", "", 0⟩
            else ⟨"", "", 1⟩,
          cwd := "/", home := "/h", fs0 := fun _ => true, tmpdir := "/tmp", now := 0 }
        (parseCliArgs ["new", "feat"])).effs
      (posixDirname (worktreePath (posixResolve "/" (defaultDepot "/h")) "/repo" "feat")) =
      true :=
  cmdNew_already_exists_mutates
    { exec := fun _ cmd =>
        if cmd = ["git", "rev-parse", "--show-toplevel"] then ⟨"/repo", "", 0⟩
        else ⟨"", "", 1⟩,
      cwd := "/", home := "/h", fs0 := fun _ => true, tmpdir := "/tmp", now := 0 }
    (parseCliArgs ["new", "feat"])
    (worktreePath (posixResolve "/" (defaultDepot "/h")) "/repo" "feat") "feat" (by rfl)

lemma splitSlash_ne_nil (l : List Char) : splitSlash l ≠ [] := by
  cases l with
  | nil => simp [splitSlash]
  | cons c cs =>
    simp only [splitSlash]
    by_cases h : c = '/'
    · simp [h]
    · simp only [h, if_false, ite_false]
      rcases hs : splitSlash cs with _ | ⟨p, ps⟩ <;> simp

lemma splitSlash_noSlash (l : List Char) (h : '/' ∉ l) : splitSlash l = [l] := by
  induction l with
  | nil => simp [splitSlash]
  | cons c cs ih =>
    simp only [List.mem_cons, not_or] at h
    simp only [splitSlash]
    rw [if_neg (Ne.symm h.1)]
    rw [ih h.2]

lemma splitSlash_append (l n : List Char) (hn : '/' ∉ n) :
    splitSlash (l ++ '/' :: n) = splitSlash l ++ [n] := by
  induction l with
  | nil =>
    simp [splitSlash, splitSlash_noSlash n hn]
  | cons c cs ih =>
    by_cases h : c = '/'
    · simp [List.cons_append, splitSlash, h, ih]
    · simp only [List.cons_append, splitSlash, h, if_false, ite_false, List.append_eq]
      rw [ih]
      rcases hs : splitSlash cs with _ | ⟨p, ps⟩
      · exact absurd hs (splitSlash_ne_nil cs)
      · simp

lemma splitSlash_cons_append (x R : List Char) (hx : '/' ∉ x) :
    splitSlash (x ++ '/' :: R) = x :: splitSlash R := by
  induction x with
  | nil => simp [splitSlash]
  | cons c cs ih =>
    simp only [List.mem_cons, not_or] at hx
    simp only [List.cons_append, splitSlash, List.append_eq]
    rw [if_neg (Ne.symm hx.1)]
    rw [ih hx.2]

lemma mem_splitSlash_no_slash (l : List Char) : ∀ p ∈ splitSlash l, '/' ∉ p := by
  induction l with
  | nil => simp [splitSlash]
  | cons c cs ih =>
    intro p hp
    simp only [splitSlash] at hp
    by_cases h : c = '/'
    · simp only [h, if_true, ite_true, List.mem_cons] at hp
      rcases hp with rfl | hp
      · simp
      · exact ih p hp
    · simp only [h, if_false, ite_false] at hp
      rcases hs : splitSlash cs with _ | ⟨q, qs⟩
      · exact absurd hs (splitSlash_ne_nil cs)
      · rw [hs] at hp
        simp only [List.mem_cons] at hp
        rcases hp with rfl | hp
        · intro hmem
          simp only [List.mem_cons] at hmem
          rcases hmem with h' | h'
          · exact h h'.symm
          · exact ih q (by rw [hs]; simp) h'
        · exact ih p (by rw [hs]; simp [hp])

lemma splitSlash_intercalate (parts : List (List Char)) (hne : parts ≠ [])
    (hs : ∀ p ∈ parts, '/' ∉ p) :
    splitSlash ((parts.intersperse ['/']).flatten) = parts := by
  induction parts with
  | nil => exact absurd rfl hne
  | cons x rest ih =>
    rcases rest with _ | ⟨y, rest'⟩
    · simp [splitSlash_noSlash x (hs x (by simp))]
    · have hx : '/' ∉ x := hs x (by simp)
      have hrest : ∀ p ∈ y :: rest', '/' ∉ p := fun p hp => hs p (by simp [hp])
      simp only [List.intersperse, List.flatten_cons, List.singleton_append]
      rw [splitSlash_cons_append x _ hx]
      rw [ih (by simp) hrest]


lemma normPush_plain (a : Bool) (acc : List (List Char)) (p : List Char)
    (hp : p ≠ [] ∧ p ≠ ['.'] ∧ p ≠ ['.', '.']) :
    normPush a acc p = acc ++ [p] := by
  simp [normPush, hp.1, hp.2.1, hp.2.2]

lemma normParts_append_plain (a : Bool) (l n : List Char)
    (hn : '/' ∉ n) (hp : n ≠ [] ∧ n ≠ ['.'] ∧ n ≠ ['.', '.']) :
    normParts a (l ++ '/' :: n) = normParts a l ++ [n] := by
  unfold normParts
  rw [splitSlash_append l n hn, List.foldl_append]
  simp [normPush_plain a _ n hp]

lemma mem_foldl_normPush (a : Bool) (parts : List (List Char)) (acc : List (List Char))
    (hacc : ∀ p ∈ acc, '/' ∉ p) (hparts : ∀ p ∈ parts, '/' ∉ p) :
    ∀ p ∈ parts.foldl (normPush a) acc, '/' ∉ p := by
  induction parts generalizing acc with
  | nil => simpa using hacc
  | cons x rest ih =>
    intro p hp
    refine ih (normPush a acc x) ?_ (fun q hq => hparts q (by simp [hq])) p hp
    intro q hq
    have hx : '/' ∉ x := hparts x (by simp)
    unfold normPush at hq
    split at hq
    · exact hacc q hq
    · split at hq
      · split at hq
        · split at hq
          · rcases List.mem_append.mp hq with h1 | h1
            · exact hacc q h1
            · simp only [List.mem_singleton] at h1
              subst h1
              exact hx
          · exact hacc q (List.dropLast_subset _ hq)
        · split at hq
          · simp only [List.mem_singleton] at hq
            subst hq
            exact hx
          · simp at hq
      · rcases List.mem_append.mp hq with h1 | h1
        · exact hacc q h1
        · simp only [List.mem_singleton] at h1
          subst h1
          exact hx

lemma mem_normParts (a : Bool) (l : List Char) :
    ∀ p ∈ normParts a l, '/' ∉ p :=
  mem_foldl_normPush a (splitSlash l) [] (by simp) (mem_splitSlash_no_slash l)

lemma repoId_data (r : String) : (repoIdFromRoot r).data =
    (sanitizeSeg (posixBasename r)).data ++ '-' :: (sha1Hex r).data.take 10 := by
  simp [repoIdFromRoot, String.data_append]

lemma repoId_plain (r : String) :
    (repoIdFromRoot r).data ≠ [] ∧ '/' ∉ (repoIdFromRoot r).data ∧
    (repoIdFromRoot r).data ≠ ['.'] ∧ (repoIdFromRoot r).data ≠ ['.', '.'] := by
  have hd := repoId_data r
  have hlen : ((sha1Hex r).data.take 10).length = 10 := (repoIdFromRoot_spec r).2.1
  refine ⟨?_, ?_, ?_, ?_⟩
  · rw [hd]
    intro hcon
    apply_fun List.length at hcon
    simp [hlen] at hcon
  · rw [hd]
    intro hmem
    rcases List.mem_append.mp hmem with h1 | h1
    · have := (repoIdFromRoot_spec r).2.2.2.1 _ h1
      exact absurd this (by decide)
    · rcases List.mem_cons.mp h1 with h2 | h2
      · exact absurd h2 (by decide)
      · have := (repoIdFromRoot_spec r).2.2.1 _ h2
        exact absurd this (by decide)
  · rw [hd]
    intro hcon
    apply_fun List.length at hcon
    simp [hlen] at hcon
  · rw [hd]
    intro hcon
    apply_fun List.length at hcon
    simp [hlen] at hcon


lemma getLast?_mem' {α : Type} {l : List α} {a : α} (h : l.getLast? = some a) :
    a ∈ l := by
  induction l with
  | nil => simp at h
  | cons x xs ih =>
    cases xs with
    | nil =>
      simp [List.getLast?] at h
      simp [h]
    | cons y ys =>
      rw [List.getLast?_cons_cons] at h
      simp [ih h]

lemma getLast?_append_ne_slash {l : List Char} (L : List Char)
    (hl : l ≠ []) (hs : '/' ∉ l) : (L ++ l).getLast? ≠ some '/' := by
  have h1 : (L ++ l).getLast? = l.getLast? := List.getLast?_append_of_ne_nil L hl
  rw [h1]
  intro hc
  exact hs (by simpa using getLast?_mem' hc)

lemma normParts_single (a : Bool) (l : List Char)
    (hl : '/' ∉ l) (hp : l ≠ [] ∧ l ≠ ['.'] ∧ l ≠ ['.', '.']) :
    normParts a l = [l] := by
  unfold normParts
  rw [splitSlash_noSlash l hl]
  simp [normPush_plain a [] l hp]


lemma normParts_append_ne_nil (a : Bool) (A nl : List Char)
    (hnls : '/' ∉ nl) (hp : nl ≠ [] ∧ nl ≠ ['.'] ∧ nl ≠ ['.', '.']) :
    normParts a (A ++ '/' :: nl) ≠ [] := by
  rw [normParts_append_plain a A nl hnls hp]
  simp

lemma splitSlash_normalizeChars_append (A nl : List Char) (hA : A ≠ [])
    (hnl : nl ≠ []) (hnls : '/' ∉ nl) (hn1 : nl ≠ ['.']) (hn2 : nl ≠ ['.', '.']) :
    splitSlash (normalizeChars (A ++ '/' :: nl)) =
      if A.head? = some '/' then [] :: normParts false (A ++ '/' :: nl)
      else normParts true (A ++ '/' :: nl) := by
  have hM : A ++ '/' :: nl ≠ [] := by
    rcases A with _ | ⟨a, as⟩
    · exact absurd rfl hA
    · simp
  have hMh : (A ++ '/' :: nl).head? = A.head? := by
    rcases A with _ | ⟨a, as⟩
    · exact absurd rfl hA
    · simp
  have htr : (A ++ '/' :: nl).getLast? ≠ some '/' := by
    rw [show A ++ '/' :: nl = (A ++ ['/']) ++ nl by simp]
    exact getLast?_append_ne_slash (A ++ ['/']) hnl hnls
  have hsp : ∀ b : Bool, splitSlash
      (((normParts b (A ++ '/' :: nl)).intersperse ['/']).flatten) =
      normParts b (A ++ '/' :: nl) := by
    intro b
    exact splitSlash_intercalate _ (normParts_append_ne_nil b A nl hnls ⟨hnl, hn1, hn2⟩)
      (mem_normParts b _)
  have hbody : ∀ b : Bool,
      ((normParts b (A ++ '/' :: nl)).intersperse ['/']).flatten ≠ [] := by
    intro b hcon
    have h1 := hsp b
    rw [hcon] at h1
    rw [normParts_append_plain b A nl hnls ⟨hnl, hn1, hn2⟩] at h1
    rcases hnp : normParts b A with _ | ⟨p, ps⟩
    · rw [hnp] at h1
      simp [splitSlash] at h1
      exact hnl h1
    · rw [hnp] at h1
      apply_fun List.length at h1
      simp [splitSlash] at h1
  have hd2 : decide ((A ++ '/' :: nl).getLast? = some '/') = false :=
    decide_eq_false htr
  have htr2 : ('/' :: nl).getLast? ≠ some '/' := by
    rw [show ('/' :: nl) = ['/'] ++ nl by simp]
    exact getLast?_append_ne_slash ['/'] hnl hnls
  by_cases habs : A.head? = some '/'
  · have hd1 : decide ((A ++ '/' :: nl).head? = some '/') = true := by
      rw [hMh]; simp [habs]
    have hnorm : normalizeChars (A ++ '/' :: nl) =
        '/' :: ((normParts false (A ++ '/' :: nl)).intersperse ['/']).flatten := by
      unfold normalizeChars
      rw [if_neg hM]
      simp only [hd1, hd2, Bool.not_true, Bool.not_false]
      rw [if_neg (hbody false)]
      simp [habs, htr2]
    rw [if_pos habs, hnorm]
    rw [show ('/' :: ((normParts false (A ++ '/' :: nl)).intersperse ['/']).flatten) =
        ([] : List Char) ++ '/' :: ((normParts false (A ++ '/' :: nl)).intersperse ['/']).flatten
      by simp]
    rw [splitSlash_cons_append _ _ (by simp)]
    rw [hsp false]
  · have hd1 : decide ((A ++ '/' :: nl).head? = some '/') = false := by
      rw [hMh]; simp [habs]
    have hnorm : normalizeChars (A ++ '/' :: nl) =
        ((normParts true (A ++ '/' :: nl)).intersperse ['/']).flatten := by
      unfold normalizeChars
      rw [if_neg hM]
      simp only [hd1, hd2, Bool.not_true, Bool.not_false]
      rw [if_neg (hbody true)]
      simp [habs, hA, htr2]
    rw [if_neg habs, hnorm]
    exact hsp true


lemma head?_ne_slash {l : List Char} (hl : l ≠ []) (hs : '/' ∉ l) :
    l.head? ≠ some '/' := by
  rcases l with _ | ⟨c, cs⟩
  · exact absurd rfl hl
  · simp only [List.head?]
    intro hc
    injection hc with hc
    exact hs (hc ▸ List.mem_cons_self c cs)

lemma plainSeg_data {n : String} (hn : plainSeg n) :
    n.data ≠ [] ∧ '/' ∉ n.data ∧ n.data ≠ ['.'] ∧ n.data ≠ ['.', '.'] := by
  obtain ⟨h1, h2, h3, h4⟩ := hn
  exact ⟨fun hc => h1 (String.ext (hc.trans rfl)), h2,
    fun hc => h3 (String.ext hc), fun hc => h4 (String.ext hc)⟩

lemma worktreePath_data_segments (d r n : String) (hn : plainSeg n) :
    splitSlash (worktreePath d r n).data =
      ((if d.data = [] then ([] : List (List Char))
        else if d.data.head? = some '/' then [] :: normParts false d.data
        else normParts true d.data) ++ [(repoIdFromRoot r).data]) ++ [n.data] := by
  obtain ⟨hnd, hns, hn1, hn2⟩ := plainSeg_data hn
  obtain ⟨hid, his, hi1, hi2⟩ := repoId_plain r
  rcases hdl : d.data with _ | ⟨c, cs⟩
  · have hjoin : (worktreePath d r n).data =
        normalizeChars ((repoIdFromRoot r).data ++ '/' :: n.data) := by
      show (posixJoin [d, repoIdFromRoot r, n]).data = _
      simp [posixJoin, joinChars, hdl, hid, hnd, List.intersperse]
    rw [hjoin,
      splitSlash_normalizeChars_append (repoIdFromRoot r).data n.data hid hnd hns hn1 hn2]
    rw [if_neg (head?_ne_slash hid his)]
    rw [normParts_append_plain true _ _ hns ⟨hnd, hn1, hn2⟩,
      normParts_single true _ his ⟨hid, hi1, hi2⟩]
    simp [hdl]
  · have hjoin : (worktreePath d r n).data =
        normalizeChars ((d.data ++ '/' :: (repoIdFromRoot r).data) ++ '/' :: n.data) := by
      show (posixJoin [d, repoIdFromRoot r, n]).data = _
      simp [posixJoin, joinChars, hdl, hid, hnd, List.intersperse]
    have hA : d.data ++ '/' :: (repoIdFromRoot r).data ≠ [] := by
      rw [hdl]; simp
    rw [hjoin, splitSlash_normalizeChars_append _ n.data hA hnd hns hn1 hn2]
    have hh : (d.data ++ '/' :: (repoIdFromRoot r).data).head? = some c := by
      rw [hdl]; simp
    have hparts : ∀ b : Bool,
        normParts b ((d.data ++ '/' :: (repoIdFromRoot r).data) ++ '/' :: n.data) =
          (normParts b d.data ++ [(repoIdFromRoot r).data]) ++ [n.data] := by
      intro b
      rw [normParts_append_plain b _ _ hns ⟨hnd, hn1, hn2⟩,
        normParts_append_plain b _ _ his ⟨hid, hi1, hi2⟩]
    by_cases hc : c = '/'
    · rw [if_pos (by rw [hh, hc])]
      rw [hparts false]
      rw [hdl]
      rw [if_neg (by simp), if_pos (by simp [hc])]
      simp
    · rw [if_neg (by rw [hh]; intro hcon; injection hcon with hcon; exact hc hcon)]
      rw [hparts true]
      rw [hdl]
      rw [if_neg (by simp), if_neg (by simp [hc])]


/-- C5 (amended): `worktreePath d r n` is exactly the POSIX join of the depot,
the repo identity and the name; and for plain single-segment names
(nonempty, separator-free, not `.`/`..` — the shape of real worktree names),
two paths built from the same depot and root agree on every segment except
the last, whose value is the name itself. -/
theorem worktreePath_spec (d r n1 n2 : String) (h1 : plainSeg n1) (h2 : plainSeg n2)
    (_hne : n1 ≠ n2) :
    worktreePath d r n1 = posixJoin [d, repoIdFromRoot r, n1] ∧
    differOnlyInFinalSeg (worktreePath d r n1) (worktreePath d r n2) ∧
    (splitSlash (worktreePath d r n1).data).getLast? = some n1.data := by
  refine ⟨rfl, ?_, ?_⟩
  · unfold differOnlyInFinalSeg
    rw [worktreePath_data_segments d r n1 h1, worktreePath_data_segments d r n2 h2]
    rw [List.dropLast_concat, List.dropLast_concat]
  · rw [worktreePath_data_segments d r n1 h1]
    exact List.getLast?_concat _

set_option maxRecDepth 10000 in
/-- C5 counterexample to the unrestricted claim: the names `"x"` and `"a/b"`
are distinct, yet the corresponding worktree paths do not differ only in the
final segment — a name containing a separator adds a whole extra segment. -/
theorem worktreePath_counterexample :
    ("x" : String) ≠ "a/b" ∧
    ¬ differOnlyInFinalSeg (worktreePath "/d" "/r" "x") (worktreePath "/d" "/r" "a/b") := by
  constructor
  · decide
  · decide

set_option maxRecDepth 10000 in
/-- Witness for `worktreePath_spec` at concrete plain-segment names. -/
theorem worktreePath_spec_witness :
    worktreePath "/d" "/r" "a" = posixJoin ["/d", repoIdFromRoot "/r", "a"] ∧
    differOnlyInFinalSeg (worktreePath "/d" "/r" "a") (worktreePath "/d" "/r" "b") ∧
    (splitSlash (worktreePath "/d" "/r" "a").data).getLast? = some ("a" : String).data :=
  worktreePath_spec "/d" "/r" "a" "b" (by unfold plainSeg; decide)
    (by unfold plainSeg; decide) (by decide)


end Wk
